import Mathlib

/-!
Shallow embedding of the control-plane supervisor in `src/wfb_ng/server.py`
(wifibroadcast).  Python integers are modelled as `Int`/`Nat`, Python float
settings as `Rat`, Python dicts as association lists with insert-or-replace
update, and raising/non-raising outcomes as explicit result values.  The
statistics aggregation, TX antenna selection, RSSI injection, the RX/TX
worker stdout parsers and the one-shot deferred (promise) discipline are
embedded from the source and verified below.
-/

namespace Wfb

/-- Per-antenna statistics tuple
`(pkt, rssi_min, rssi_avg, rssi_max, snr_min, snr_avg, snr_max)` as parsed
from an `RX_ANT` record and as produced by the fold
(`StatsAndSelectorFactory._stats_agg_by_freq`). -/
structure AntStat where
  pkt : Int
  rssi_min : Int
  rssi_avg : Int
  rssi_max : Int
  snr_min : Int
  snr_avg : Int
  snr_max : Int
deriving DecidableEq

/-- Frequency key `(freq, mcs_index, bandwidth)` of an `RX_ANT` record. -/
abbrev FreqKey := Int × Int × Int

/-- One item of the `ant_stats` dict handed to the aggregator:
`((freq_key, ant_id), stats)`. -/
abbrev AntEntry := (FreqKey × Nat) × AntStat

/-- Intermediate accumulator used inside `_stats_agg_by_freq`: the
`rssi_avg`/`snr_avg` slots hold packet-weighted sums prior to the final
floor division. -/
structure AggAcc where
  pkt : Int
  rssi_min : Int
  rssi_avg_sum : Int
  rssi_max : Int
  snr_min : Int
  snr_avg_sum : Int
  snr_max : Int
deriving DecidableEq

/-- First visit of an `ant_id` in the fold (server.py lines 193-196). -/
def accInit (s : AntStat) : AggAcc :=
  ⟨s.pkt, s.rssi_min, s.rssi_avg * s.pkt, s.rssi_max, s.snr_min, s.snr_avg * s.pkt, s.snr_max⟩

/-- Combining step of the fold for an `ant_id` already present
(server.py lines 197-205). -/
def accAdd (t : AggAcc) (s : AntStat) : AggAcc :=
  ⟨s.pkt + t.pkt, min s.rssi_min t.rssi_min, s.rssi_avg * s.pkt + t.rssi_avg_sum,
   max s.rssi_max t.rssi_max, min s.snr_min t.snr_min, s.snr_avg * s.pkt + t.snr_avg_sum,
   max s.snr_max t.snr_max⟩

/-- Generic association-list lookup (first match), modelling Python dict
lookup (keys are unique in every dict we build). -/
def alFind {κ α : Type} [DecidableEq κ] (a : κ) : List (κ × α) → Option α
  | [] => none
  | (k, v) :: r => if k = a then some v else alFind a r

/-- Generic association-list update, modelling Python dict item assignment:
replace in place if the key is present, otherwise append. -/
def alSet {κ α : Type} [DecidableEq κ] (k : κ) (v : α) : List (κ × α) → List (κ × α)
  | [] => [(k, v)]
  | (k1, v1) :: r => if k1 = k then (k, v) :: r else (k1, v1) :: alSet k v r

/-- One iteration of the first loop of `_stats_agg_by_freq`: fold entry `e`
into the `stats_agg` dict. -/
def aggStep (e : AntEntry) : List (Nat × AggAcc) → List (Nat × AggAcc)
  | [] => [(e.1.2, accInit e.2)]
  | (k, t) :: rest =>
      if k = e.1.2 then (k, accAdd t e.2) :: rest else (k, t) :: aggStep e rest

/-- The complete first loop of `_stats_agg_by_freq` over all dict items. -/
def aggLoop (l : List AntEntry) : List (Nat × AggAcc) :=
  l.foldl (fun d e => aggStep e d) []

/-- Final per-ant division of `_stats_agg_by_freq` (server.py lines 207-212).
Python `//` is floor division, hence `Int.fdiv`. -/
def divAcc (t : AggAcc) : AntStat :=
  ⟨t.pkt, t.rssi_min, t.rssi_avg_sum.fdiv t.pkt, t.rssi_max,
   t.snr_min, t.snr_avg_sum.fdiv t.pkt, t.snr_max⟩

/-- The closing dict comprehension of `_stats_agg_by_freq`.  A zero
accumulated packet count makes Python raise `ZeroDivisionError`, which we
model as `none`. -/
def finalizeAll : List (Nat × AggAcc) → Option (List (Nat × AntStat))
  | [] => some []
  | p :: ps =>
      if p.2.pkt = 0 then none
      else
        match finalizeAll ps with
        | none => none
        | some qs => some ((p.1, divAcc p.2) :: qs)

/-- `StatsAndSelectorFactory._stats_agg_by_freq`: fold the per-(freq, ant)
stats into per-ant stats; `none` models an escaping `ZeroDivisionError`. -/
def stats_agg_by_freq (l : List AntEntry) : Option (List (Nat × AntStat)) :=
  finalizeAll (aggLoop l)

/-- Ant ids appearing in an input, in first-occurrence order. -/
def antIds (l : List AntEntry) : List Nat := (l.map (fun e => e.1.2)).dedup

/-- All stats recorded for a given `ant_id`, in input order. -/
def entriesFor (l : List AntEntry) (a : Nat) : List AntStat :=
  (l.filter (fun e => e.1.2 = a)).map (fun e => e.2)

/-- Sum of the packet counts recorded for a given `ant_id`. -/
def sumPkt (l : List AntEntry) (a : Nat) : Int :=
  ((entriesFor l a).map (fun s => s.pkt)).sum

/-- Modelled from the spec: the folded tuple the specification promises for
one `ant_id` given its per-frequency stats, namely
`(Σpkt, min rssi_min, (Σ rssi_avg*pkt) fdiv Σpkt, max rssi_max, min snr_min,
(Σ snr_avg*pkt) fdiv Σpkt, max snr_max)`; `none` when the ant is absent. -/
def foldedSpec : List AntStat → Option AntStat
  | [] => none
  | s :: ss =>
      some { pkt := ((s :: ss).map (fun u => u.pkt)).sum
           , rssi_min := (ss.map (fun u => u.rssi_min)).foldl min s.rssi_min
           , rssi_avg := (((s :: ss).map (fun u : AntStat => u.rssi_avg * u.pkt)).sum).fdiv
                           (((s :: ss).map (fun u => u.pkt)).sum)
           , rssi_max := (ss.map (fun u => u.rssi_max)).foldl max s.rssi_max
           , snr_min := (ss.map (fun u => u.snr_min)).foldl min s.snr_min
           , snr_avg := (((s :: ss).map (fun u : AntStat => u.snr_avg * u.pkt)).sum).fdiv
                          (((s :: ss).map (fun u => u.pkt)).sum)
           , snr_max := (ss.map (fun u => u.snr_max)).foldl max s.snr_max }

/-- Selection settings of `StatsAndSelectorFactory` (`tx_sel_rssi_delta`,
`tx_sel_counter_rel_delta`, `tx_sel_counter_abs_delta`); the relative delta
is a Python float, modelled as a rational. -/
structure SelCfg where
  tx_sel_rssi_delta : Int
  tx_sel_counter_rel_delta : Rat
  tx_sel_counter_abs_delta : Int
deriving DecidableEq

/-- `(ant_id >> 8) & 0xff`: the NIC index of an antenna id. -/
def wlanOf (ant_id : Nat) : Nat := (ant_id >>> 8) &&& 255

/-- NIC indices present in the folded stats (the keys of
`wlan_rssi_and_pkts`). -/
def nicsOf (sa : List (Nat × AntStat)) : List Nat :=
  (sa.map (fun p => wlanOf p.1)).dedup

/-- Folded entries belonging to one NIC. -/
def nicEntries (sa : List (Nat × AntStat)) (k : Nat) : List (Nat × AntStat) :=
  sa.filter (fun p => wlanOf p.1 = k)

/-- Per-NIC RSSI: `max(rssi_avg)` over the NIC's antennas (server.py line
227).  The default branch is never reached for a NIC that is present. -/
def nicRssi (sa : List (Nat × AntStat)) (k : Nat) : Int :=
  match (nicEntries sa k).map (fun p => p.2.rssi_avg) with
  | [] => -1000
  | x :: xs => xs.foldl max x

/-- Per-NIC packet counter: `max(pkt)` over the NIC's antennas (server.py
line 228). -/
def nicPkts (sa : List (Nat × AntStat)) (k : Nat) : Int :=
  match (nicEntries sa k).map (fun p => p.2.pkt) with
  | [] => 0
  | x :: xs => xs.foldl max x

/-- `max_pkts`: running maximum of the per-NIC packet counters, seeded with
0 (server.py lines 216, 229). -/
def maxPkts (sa : List (Nat × AntStat)) : Int :=
  (nicsOf sa).foldl (fun m k => max (nicPkts sa k) m) 0

/-- `tx_sel_counter_thr = max_pkts - max(abs_delta, max_pkts * rel_delta)`
computed in rational arithmetic (the Python expression mixes int and
float). -/
def thrOf (cfg : SelCfg) (sa : List (Nat × AntStat)) : Rat :=
  (maxPkts sa : Rat) -
    max (cfg.tx_sel_counter_abs_delta : Rat) ((maxPkts sa : Rat) * cfg.tx_sel_counter_rel_delta)

/-- `ants_with_max_pkts`: NICs whose packet counter reaches the threshold
(server.py line 237). -/
def candSet (cfg : SelCfg) (sa : List (Nat × AntStat)) : List Nat :=
  (nicsOf sa).filter (fun k => (nicPkts sa k : Rat) ≥ thrOf cfg sa)

/-- `wlan_rssi_and_pkts.get(tx_sel, (-1000, 0))[0]` (server.py line 243). -/
def curRssi (tx_sel : Nat) (sa : List (Nat × AntStat)) : Int :=
  if tx_sel ∈ nicsOf sa then nicRssi sa tx_sel else -1000

/-- Lexicographic order on `(rssi, idx)` pairs, as used by Python `max`
over 2-tuples. -/
def lexLe (a b : Int × Nat) : Prop := a.1 < b.1 ∨ (a.1 = b.1 ∧ a.2 ≤ b.2)

instance (a b : Int × Nat) : Decidable (lexLe a b) := by
  unfold lexLe; infer_instance

/-- One comparison step of Python `max` over `(rssi, idx)` tuples: keep the
current value unless the new one is strictly greater. -/
def pmax (a b : Int × Nat) : Int × Nat :=
  if a.1 < b.1 ∨ (a.1 = b.1 ∧ a.2 < b.2) then b else a

/-- `max((rssi, idx) for idx in candidates)` (server.py line 242); the
`[]` branch is unreachable because the caller checks the candidate set. -/
def bestOf (sa : List (Nat × AntStat)) (cands : List Nat) : Int × Nat :=
  match cands with
  | [] => (-1000, 0)
  | c :: cs => cs.foldl (fun b k => pmax b (nicRssi sa k, k)) (nicRssi sa c, c)

/-- Decision core of `StatsAndSelectorFactory.select_tx_antenna`:
`some n` means "switch to NIC `n` and fire every `ant_sel_cb`", `none`
means "return without change". -/
def selectDecision (cfg : SelCfg) (tx_sel : Nat) (sa : List (Nat × AntStat)) : Option Nat :=
  if nicsOf sa = [] then none
  else if candSet cfg sa = [] then none
  else if (bestOf sa (candSet cfg sa)).2 = tx_sel then none
  else if tx_sel ∈ candSet cfg sa ∧
          (bestOf sa (candSet cfg sa)).1 - curRssi tx_sel sa < cfg.tx_sel_rssi_delta then none
  else some (bestOf sa (candSet cfg sa)).2

/-- Packet-counter pairs `(delta, total)` consumed by the RSSI fan-out of
`update_rx_stats`. -/
structure RxPackets where
  dec_err : Int × Int
  bad : Int × Int
  lost : Int × Int
  fec_rec : Int × Int
deriving DecidableEq

/-- `packet_stats[field][_idx]` with `_idx = 0 if mavlink_err_rate else 1`:
component 0 of a stats pair is the delta, component 1 the total. -/
def counterAt (mavlink_err_rate : Bool) (p : Int × Int) : Int :=
  if mavlink_err_rate then p.1 else p.2

/-- Link flags computed in `update_rx_stats` (server.py lines 283-289):
`LINK_LOST = 1` when the card RSSI list is empty, else `LINK_JAMMED = 2`
when the decode-error plus bad deltas are positive. -/
def rssiFlags (card_rssi_l : List Int) (ps : RxPackets) : Nat :=
  if card_rssi_l = [] then 1
  else if 0 < ps.dec_err.1 + ps.bad.1 then 2
  else 0

/-- `rx_errors = min(dec_err + bad + lost, 65535)` at the selected index. -/
def rx_errors (mavlink_err_rate : Bool) (ps : RxPackets) : Int :=
  min (counterAt mavlink_err_rate ps.dec_err + counterAt mavlink_err_rate ps.bad +
        counterAt mavlink_err_rate ps.lost) 65535

/-- `rx_fec = min(fec_rec, 65535)` at the selected index. -/
def rx_fec (mavlink_err_rate : Bool) (ps : RxPackets) : Int :=
  min (counterAt mavlink_err_rate ps.fec_rec) 65535

/-- `mav_rssi = (max(card_rssi_l) if card_rssi_l else -128) % 256`; Python
`%` on a positive modulus is Euclidean remainder, i.e. `Int.emod`. -/
def mav_rssi (card_rssi_l : List Int) : Int :=
  (match card_rssi_l with
   | [] => (-128 : Int)
   | x :: xs => xs.foldl max x) % 256

/-- Mutable state of `StatsAndSelectorFactory` relevant to the claims:
the selected NIC, the selection settings, the number of registered
antenna-selection callbacks, RSSI callbacks and UI sessions, and the
`mavlink_err_rate` setting. -/
structure AggState where
  tx_sel : Nat
  cfg : SelCfg
  n_ant_cbs : Nat
  n_rssi_cbs : Nat
  n_sessions : Nat
  mavlink_err_rate : Bool
deriving DecidableEq

/-- Observable actions of one `update_rx_stats` call: an `ant_sel_cb`
invocation, an `rssi_cb` invocation, or a `send_stats` of the rx record
(we record its `tx_ant` field). -/
inductive AggEvent where
  | antSel (idx : Nat)
  | rssi (mav : Int) (errors : Int) (fec : Int) (flags : Nat)
  | sendRx (tx_ant : Nat)
deriving DecidableEq

/-- Tail of `select_tx_antenna`: on a switch decision fire every registered
`ant_sel_cb` with the new index, then assign `tx_sel` (server.py lines
255-261); otherwise return unchanged. -/
def selectRun (st : AggState) (sa : List (Nat × AntStat)) : AggState × List AggEvent :=
  match selectDecision st.cfg st.tx_sel sa with
  | none => (st, [])
  | some n => ({ st with tx_sel := n }, List.replicate st.n_ant_cbs (AggEvent.antSel n))

/-- `StatsAndSelectorFactory.add_ant_sel_cb`: register the callback and
invoke it immediately with the current `tx_sel` (server.py lines 178-180). -/
def add_ant_sel_cb (st : AggState) : AggState × List AggEvent :=
  ({ st with n_ant_cbs := st.n_ant_cbs + 1 }, [AggEvent.antSel st.tx_sel])

/-- Selection phase of `update_rx_stats`: the selector runs only when the
folded stats are non-empty and at least one `ant_sel_cb` is registered
(server.py line 278). -/
def selPart (st : AggState) (sa : List (Nat × AntStat)) : AggState × List AggEvent :=
  if sa ≠ [] ∧ st.n_ant_cbs ≠ 0 then selectRun st sa else (st, [])

/-- RSSI fan-out phase of `update_rx_stats` (server.py lines 281-299): when
RSSI callbacks are registered, each receives the same computed values. -/
def rssiPart (st : AggState) (ps : RxPackets) (card_rssi_l : List Int) : List AggEvent :=
  if st.n_rssi_cbs ≠ 0 then
    List.replicate st.n_rssi_cbs
      (AggEvent.rssi (mav_rssi card_rssi_l) (rx_errors st.mavlink_err_rate ps)
        (rx_fec st.mavlink_err_rate ps) (rssiFlags card_rssi_l ps))
  else []

/-- `StatsAndSelectorFactory.update_rx_stats`: fold the ant stats, run the
selector when the fold is non-empty and callbacks exist, fire the RSSI
callbacks, then broadcast the rx record (carrying the current `tx_sel`) to
every UI session.  `none` models the `ZeroDivisionError` escaping from the
fold. -/
def update_rx_stats (st : AggState) (ps : RxPackets) (ant_stats : List AntEntry) :
    Option (AggState × List AggEvent) :=
  match stats_agg_by_freq ant_stats with
  | none => none
  | some sa =>
      some ((selPart st sa).1,
        (selPart st sa).2 ++ rssiPart st ps (sa.map (fun p => p.2.rssi_avg)) ++
          List.replicate (selPart st sa).1.n_sessions (AggEvent.sendRx (selPart st sa).1.tx_sel))

/-- Phase rank of an aggregator event: selection callbacks, then RSSI
callbacks, then the broadcast. -/
def evRank : AggEvent → Nat
  | AggEvent.antSel _ => 0
  | AggEvent.rssi _ _ _ _ => 1
  | AggEvent.sendRx _ => 2

/-! ### Worker stdout parsers

Lines are modelled as `List Char`; splitting, stripping and Python `int()`
parsing are embedded below.  (Our `int()` model accepts an optional sign
followed by decimal digits, and the `int(s, 16)` model accepts hex digits;
Python additionally tolerates surrounding whitespace and underscores, which
no claim depends on.) -/

/-- Python `str.split(sep)` for a one-character separator. -/
def splitOnChar (sep : Char) : List Char → List (List Char)
  | [] => [[]]
  | c :: cs =>
      if c = sep then [] :: splitOnChar sep cs
      else
        match splitOnChar sep cs with
        | [] => [[c]]
        | r :: rs => (c :: r) :: rs

/-- Python `str.strip()`. -/
def trimChars (s : List Char) : List Char :=
  ((s.dropWhile Char.isWhitespace).reverse.dropWhile Char.isWhitespace).reverse

/-- Decimal digit accumulator for the `int()` model. -/
def digitsAcc (acc : Nat) : List Char → Option Nat
  | [] => some acc
  | c :: cs => if c.isDigit then digitsAcc (acc * 10 + (c.toNat - 48)) cs else none

/-- Model of Python `int(s)`: `none` is a `ValueError`. -/
def pyToInt : List Char → Option Int
  | [] => none
  | '-' :: cs => if cs = [] then none else (digitsAcc 0 cs).map (fun n => -(n : Int))
  | '+' :: cs => if cs = [] then none else (digitsAcc 0 cs).map (fun n => (n : Int))
  | cs => (digitsAcc 0 cs).map (fun n => (n : Int))

/-- Hexadecimal digit value. -/
def hexDigitVal (c : Char) : Option Nat :=
  if '0' ≤ c ∧ c ≤ '9' then some (c.toNat - 48)
  else if 'a' ≤ c ∧ c ≤ 'f' then some (c.toNat - 87)
  else if 'A' ≤ c ∧ c ≤ 'F' then some (c.toNat - 55)
  else none

/-- Hex digit accumulator. -/
def hexAcc (acc : Nat) : List Char → Option Nat
  | [] => some acc
  | c :: cs =>
      match hexDigitVal c with
      | some d => hexAcc (acc * 16 + d) cs
      | none => none

/-- Model of Python `int(s, 16)`: `none` is a `ValueError`. -/
def pyHexToNat (s : List Char) : Option Nat :=
  match s with
  | [] => none
  | _ => hexAcc 0 s

/-- `list(int(i) for i in s.split(sep))` on an already split list: first
failing field raises, i.e. yields `none`. -/
def intsOf : List (List Char) → Option (List Int)
  | [] => some []
  | s :: rest =>
      match pyToInt s, intsOf rest with
      | some v, some vs => some (v :: vs)
      | _, _ => none

/-- `list(int(i) for i in s.split(':'))`. -/
def parseIntList (s : List Char) : Option (List Int) :=
  intsOf (splitOnChar ':' s)

/-- The shared running-counter update of both PKT handlers
(server.py lines 363-367 and 454-458): start from the current deltas when
`count_all` is unset, otherwise add componentwise. -/
def updCount (o : Option (List Int)) (d : List Int) : List Int :=
  match o with
  | none => d
  | some t => List.zipWith (· + ·) d t

/-- Successive values taken by `count_all` over a sequence of parsed PKT
delta vectors; element `k` is the `total` column published with record
`k`. -/
def totalsSeq (o : Option (List Int)) : List (List Int) → List (List Int)
  | [] => []
  | d :: ds => updCount o d :: totalsSeq (some (updCount o d)) ds

/-- Modelled from the spec: componentwise sum of a list of delta vectors of
width `n` ("the sum of all deltas parsed so far"). -/
def vecSum (n : Nat) : List (List Int) → List Int
  | [] => List.replicate n 0
  | d :: ds => List.zipWith (· + ·) d (vecSum n ds)

/-- Session dict built from a `SESSION` record. -/
structure RxSession where
  fec_type : String
  fec_k : Int
  fec_n : Int
  epoch : Int
deriving DecidableEq

/-- Observable outputs of `RXAntennaProtocol.lineReceived`: a published
`(packet_stats, ant_snapshot, session)` triple or a new-session
announcement. -/
inductive RxEvent where
  | stats (packets : List (String × Int × Int))
      (antennas : List ((List Int × Nat) × List Int)) (session : Option RxSession)
  | newSession (s : RxSession)
deriving DecidableEq

/-- Outcome of one `lineReceived` call: normal return, `BadTelemetry`
caught and logged, or an exception escaping the handler. -/
inductive RxOut where
  | ok
  | badLogged
  | raised
deriving DecidableEq

/-- Accumulated state of `RXAntennaProtocol`. -/
structure RxState where
  ant : List ((List Int × Nat) × List Int)
  count_all : Option (List Int)
  session : Option RxSession
deriving DecidableEq

/-- Fresh `RXAntennaProtocol` state. -/
def rxInit : RxState := ⟨[], none, none⟩

/-- Field names of the published RX packet stats, in the order they are
zipped with `(delta, total)` pairs (server.py lines 369-371). -/
def rxStatNames : List String :=
  ["all", "all_bytes", "dec_ok", "fec_rec", "lost", "dec_err", "bad", "out", "out_bytes"]

/-- `RXAntennaProtocol.lineReceived` (server.py lines 341-392).  Only
`BadTelemetry` is caught by the handler; a `ValueError` from `int()` or
from tuple unpacking escapes (`RxOut.raised`). -/
def rxLineReceived (st : RxState) (line : List Char) : RxState × RxOut × List RxEvent :=
  match splitOnChar '\t' (trimChars line) with
  | _ts :: cmdc :: rest =>
      if cmdc = "RX_ANT".data then
        match rest with
        | [freqS, antS, statS] =>
            match intsOf (splitOnChar ':' freqS), pyHexToNat antS, parseIntList statS with
            | some freq, some ant_id, some stats =>
                ({ st with ant := alSet (freq, ant_id) stats st.ant }, RxOut.ok, [])
            | _, _, _ => (st, RxOut.raised, [])
        | _ => (st, RxOut.badLogged, [])
      else if cmdc = "PKT".data then
        match rest with
        | [statS] =>
            match parseIntList statS with
            | some [p_all, b_all, p_dec_err, p_dec_ok, p_fec_rec, p_lost, p_bad, p_out, b_out] =>
                let deltas := [p_all, b_all, p_dec_ok, p_fec_rec, p_lost, p_dec_err, p_bad, p_out, b_out]
                let totals := updCount st.count_all deltas
                ({ st with count_all := some totals, ant := [] }, RxOut.ok,
                 [RxEvent.stats (rxStatNames.zip (deltas.zip totals)) st.ant st.session])
            | some _ => (st, RxOut.raised, [])
            | none => (st, RxOut.raised, [])
        | _ => (st, RxOut.badLogged, [])
      else if cmdc = "SESSION".data then
        match rest with
        | [sessS] =>
            match parseIntList sessS with
            | some [epoch, fec_type, fec_k, fec_n] =>
                let sess : RxSession :=
                  ⟨if fec_type = 1 then "VDM_RS" else "Unknown", fec_k, fec_n, epoch⟩
                ({ st with session := some sess }, RxOut.ok, [RxEvent.newSession sess])
            | some _ => (st, RxOut.raised, [])
            | none => (st, RxOut.raised, [])
        | _ => (st, RxOut.badLogged, [])
      else (st, RxOut.badLogged, [])
  | _ => (st, RxOut.badLogged, [])

/-- An `ant_stats` entry whose packet count is 0 (legal `RX_ANT` input). -/
def zeroPktEntry : AntEntry := (((0, 0, 0), 5), ⟨0, -40, -40, -40, 10, 10, 10⟩)

/-- Aggregator state used by witnesses: no selection callbacks, one RSSI
callback, one UI session. -/
def aggW : AggState := ⟨0, ⟨3, 0, 50⟩, 0, 1, 1, false⟩

/-- Packet stats with all counters zero. -/
def psW : RxPackets := ⟨(0, 0), (0, 0), (0, 0), (0, 0)⟩

/-- A single folded entry: ant 0, 1 packet, RSSI −50. -/
def antW : List AntEntry := [(((0, 0, 0), 0), ⟨1, -50, -50, -50, 10, 10, 10⟩)]

/-- Two-NIC folded stats used by the hysteresis witness: NIC 0 at −60 dBm,
NIC 1 at −58 dBm, equal packet counters. -/
def saW : List (Nat × AntStat) :=
  [(0, ⟨100, -70, -60, -50, 10, 10, 10⟩), (256, ⟨100, -70, -58, -50, 10, 10, 10⟩)]

/-- Aggregator state selecting NIC 0 with `rssi_delta = 3`. -/
def aggW2 : AggState := ⟨0, ⟨3, 0, 50⟩, 2, 0, 1, false⟩

/-- Combined fold step on an optional accumulator: first visit initialises,
later visits combine. -/
def optAdd (o : Option AggAcc) (s : AntStat) : AggAcc :=
  match o with
  | none => accInit s
  | some t => accAdd t s

/-- Accumulator reached by the first loop of `_stats_agg_by_freq` for one
ant, given the list of stats recorded for it; `none` when the ant never
occurs. -/
def accOf : List AntStat → Option AggAcc
  | [] => none
  | s :: ss => some (ss.foldl accAdd (accInit s))

/-- Two-frequency input for ant 5 used by the fold witness. -/
def lw : List AntEntry :=
  [(((0, 0, 0), 5), ⟨2, -60, -10, -5, 1, 4, 9⟩),
   (((1, 0, 0), 5), ⟨2, -70, -20, -1, 2, 6, 8⟩)]

/-! ### Lemmas about the statistics fold -/

theorem alFind_aggStep (a : Nat) (e : AntEntry) (acc : List (Nat × AggAcc)) :
    alFind a (aggStep e acc) =
      if e.1.2 = a then some (optAdd (alFind a acc) e.2) else alFind a acc := by
  induction acc with
  | nil =>
      by_cases h : e.1.2 = a <;> simp [aggStep, alFind, optAdd, h]
  | cons p r ih =>
      obtain ⟨k, t⟩ := p
      by_cases h1 : k = e.1.2
      · subst h1
        by_cases h2 : e.1.2 = a <;> simp [aggStep, alFind, optAdd, h2]
      · by_cases h2 : k = a
        · subst h2
          have h3 : ¬ e.1.2 = k := fun hh => h1 hh.symm
          simp [aggStep, alFind, h1, h3]
        · simp [aggStep, alFind, h1, h2, ih]

theorem alFind_foldl_agg (a : Nat) (l : List AntEntry) :
    ∀ acc : List (Nat × AggAcc),
      alFind a (l.foldl (fun d e => aggStep e d) acc) =
        (l.filter (fun e => e.1.2 = a)).foldl (fun o e => some (optAdd o e.2)) (alFind a acc) := by
  induction l with
  | nil => intro acc; rfl
  | cons e l ih =>
      intro acc
      rw [List.foldl_cons, ih, alFind_aggStep]
      by_cases h : e.1.2 = a <;> simp [List.filter_cons, h]

theorem foldl_someOptAdd (ss : List AntStat) :
    ∀ t : AggAcc, ss.foldl (fun o s => some (optAdd o s)) (some t) = some (ss.foldl accAdd t) := by
  induction ss with
  | nil => intro t; rfl
  | cons s ss ih => intro t; simpa [optAdd] using ih (accAdd t s)

theorem foldl_optAdd_accOf (es : List AntStat) :
    es.foldl (fun o s => some (optAdd o s)) none = accOf es := by
  cases es with
  | nil => rfl
  | cons s ss => simpa [accOf, optAdd] using foldl_someOptAdd ss (accInit s)

theorem alFind_aggLoop (l : List AntEntry) (a : Nat) :
    alFind a (aggLoop l) = accOf (entriesFor l a) := by
  rw [aggLoop, alFind_foldl_agg]
  show (l.filter (fun e => e.1.2 = a)).foldl (fun o e => some (optAdd o e.2)) none = _
  rw [entriesFor, ← foldl_optAdd_accOf, List.foldl_map]

theorem aggStep_keys (e : AntEntry) (acc : List (Nat × AggAcc)) :
    (aggStep e acc).map Prod.fst =
      if e.1.2 ∈ acc.map Prod.fst then acc.map Prod.fst
      else acc.map Prod.fst ++ [e.1.2] := by
  induction acc with
  | nil => simp [aggStep]
  | cons p r ih =>
      obtain ⟨k, t⟩ := p
      by_cases h1 : k = e.1.2
      · subst h1; simp [aggStep]
      · have h2 : ¬ e.1.2 = k := fun hh => h1 hh.symm
        by_cases h3 : e.1.2 ∈ r.map Prod.fst <;> simp [aggStep, h1, h2, h3, ih]

theorem aggLoop_keys_nodup (l : List AntEntry) : ((aggLoop l).map Prod.fst).Nodup := by
  rw [aggLoop]
  suffices h : ∀ acc : List (Nat × AggAcc), (acc.map Prod.fst).Nodup →
      ((l.foldl (fun d e => aggStep e d) acc).map Prod.fst).Nodup from h [] (by simp)
  induction l with
  | nil => intro acc hacc; simpa using hacc
  | cons e l ih =>
      intro acc hacc
      rw [List.foldl_cons]
      refine ih _ ?_
      rw [aggStep_keys]
      by_cases h : e.1.2 ∈ acc.map Prod.fst
      · simpa [h] using hacc
      · simp [h, List.nodup_append, hacc]

theorem alFind_mem {κ α : Type} [DecidableEq κ] {a : κ} {v : α} :
    ∀ {ps : List (κ × α)}, alFind a ps = some v → (a, v) ∈ ps := by
  intro ps
  induction ps with
  | nil => intro h; simp [alFind] at h
  | cons p r ih =>
      obtain ⟨k, w⟩ := p
      intro h
      by_cases hk : k = a
      · subst hk
        simp [alFind] at h
        subst h
        exact List.mem_cons_self _ _
      · simp [alFind, hk] at h
        exact List.mem_cons_of_mem _ (ih h)

theorem mem_alFind {κ α : Type} [DecidableEq κ] :
    ∀ {ps : List (κ × α)}, (ps.map Prod.fst).Nodup →
      ∀ {p : κ × α}, p ∈ ps → alFind p.1 ps = some p.2 := by
  intro ps
  induction ps with
  | nil => intro _ p hp; simp at hp
  | cons q r ih =>
      intro hnd p hp
      obtain ⟨k, w⟩ := q
      have hnd2 : (r.map Prod.fst).Nodup := (List.nodup_cons.mp hnd).2
      rcases List.mem_cons.mp hp with h | h
      · subst h; simp [alFind]
      · have hk : ¬ k = p.1 := by
          intro hh
          have hmem : p.1 ∈ r.map Prod.fst := List.mem_map_of_mem Prod.fst h
          rw [hh] at hnd
          exact (List.nodup_cons.mp hnd).1 hmem
        simp only [alFind, hk, if_false]
        exact ih hnd2 h

theorem finalizeAll_isSome (ps : List (Nat × AggAcc)) (h : ∀ p ∈ ps, p.2.pkt ≠ 0) :
    ∃ qs, finalizeAll ps = some qs := by
  induction ps with
  | nil => exact ⟨[], rfl⟩
  | cons p r ih =>
      obtain ⟨qs, hqs⟩ := ih (fun q hq => h q (List.mem_cons_of_mem _ hq))
      refine ⟨(p.1, divAcc p.2) :: qs, ?_⟩
      simp [finalizeAll, h p (List.mem_cons_self _ _), hqs]

theorem finalizeAll_find (a : Nat) :
    ∀ (ps : List (Nat × AggAcc)) (qs : List (Nat × AntStat)),
      finalizeAll ps = some qs → alFind a qs = (alFind a ps).map divAcc := by
  intro ps
  induction ps with
  | nil =>
      intro qs h
      simp [finalizeAll] at h
      subst h; rfl
  | cons p r ih =>
      intro qs h
      by_cases hz : p.2.pkt = 0
      · simp [finalizeAll, hz] at h
      · cases hr : finalizeAll r with
        | none => simp [finalizeAll, hz, hr] at h
        | some qs2 =>
            simp [finalizeAll, hz, hr] at h
            subst h
            obtain ⟨k, t⟩ := p
            by_cases hk : k = a <;> simp [alFind, hk, ih qs2 hr]

theorem finalizeAll_none (ps : List (Nat × AggAcc)) :
    finalizeAll ps = none ↔ ∃ p ∈ ps, p.2.pkt = 0 := by
  induction ps with
  | nil => simp [finalizeAll]
  | cons p r ih =>
      by_cases hz : p.2.pkt = 0
      · simp only [finalizeAll, hz, if_true]
        constructor
        · intro _; exact ⟨p, List.mem_cons_self _ _, hz⟩
        · intro _; trivial
      · cases hr : finalizeAll r with
        | none =>
            simp only [finalizeAll, hz, if_false, hr]
            constructor
            · intro _
              obtain ⟨q, hq, hq0⟩ := ih.mp hr
              exact ⟨q, List.mem_cons_of_mem _ hq, hq0⟩
            · intro _; trivial
        | some qs =>
            simp only [finalizeAll, hz, if_false, hr]
            constructor
            · intro hcontra; simp at hcontra
            · rintro ⟨q, hq, hq0⟩
              rcases List.mem_cons.mp hq with h | h
              · subst h; exact absurd hq0 hz
              · have : finalizeAll r = none := ih.mpr ⟨q, h, hq0⟩
                rw [this] at hr; simp at hr

theorem accOf_eq_none (es : List AntStat) : accOf es = none ↔ es = [] := by
  cases es <;> simp [accOf]

theorem foldl_accAdd_pkt (ss : List AntStat) :
    ∀ t : AggAcc, (ss.foldl accAdd t).pkt = t.pkt + (ss.map (fun u => u.pkt)).sum := by
  induction ss with
  | nil => intro t; simp
  | cons s ss ih =>
      intro t
      rw [List.foldl_cons, ih]
      simp [accAdd]
      ring

theorem foldl_accAdd_ras (ss : List AntStat) :
    ∀ t : AggAcc, (ss.foldl accAdd t).rssi_avg_sum =
      t.rssi_avg_sum + (ss.map (fun u : AntStat => u.rssi_avg * u.pkt)).sum := by
  induction ss with
  | nil => intro t; simp
  | cons s ss ih =>
      intro t
      rw [List.foldl_cons, ih]
      simp [accAdd]
      ring

theorem foldl_accAdd_sas (ss : List AntStat) :
    ∀ t : AggAcc, (ss.foldl accAdd t).snr_avg_sum =
      t.snr_avg_sum + (ss.map (fun u : AntStat => u.snr_avg * u.pkt)).sum := by
  induction ss with
  | nil => intro t; simp
  | cons s ss ih =>
      intro t
      rw [List.foldl_cons, ih]
      simp [accAdd]
      ring

theorem foldl_accAdd_rmin (ss : List AntStat) :
    ∀ t : AggAcc, (ss.foldl accAdd t).rssi_min =
      (ss.map (fun u => u.rssi_min)).foldl min t.rssi_min := by
  induction ss with
  | nil => intro t; simp
  | cons s ss ih =>
      intro t
      rw [List.foldl_cons, ih, List.map_cons, List.foldl_cons]
      show (ss.map _).foldl min (min s.rssi_min t.rssi_min) =
        (ss.map _).foldl min (min t.rssi_min s.rssi_min)
      rw [min_comm]

theorem foldl_accAdd_rmax (ss : List AntStat) :
    ∀ t : AggAcc, (ss.foldl accAdd t).rssi_max =
      (ss.map (fun u => u.rssi_max)).foldl max t.rssi_max := by
  induction ss with
  | nil => intro t; simp
  | cons s ss ih =>
      intro t
      rw [List.foldl_cons, ih, List.map_cons, List.foldl_cons]
      show (ss.map _).foldl max (max s.rssi_max t.rssi_max) =
        (ss.map _).foldl max (max t.rssi_max s.rssi_max)
      rw [max_comm]

theorem foldl_accAdd_smin (ss : List AntStat) :
    ∀ t : AggAcc, (ss.foldl accAdd t).snr_min =
      (ss.map (fun u => u.snr_min)).foldl min t.snr_min := by
  induction ss with
  | nil => intro t; simp
  | cons s ss ih =>
      intro t
      rw [List.foldl_cons, ih, List.map_cons, List.foldl_cons]
      show (ss.map _).foldl min (min s.snr_min t.snr_min) =
        (ss.map _).foldl min (min t.snr_min s.snr_min)
      rw [min_comm]

theorem foldl_accAdd_smax (ss : List AntStat) :
    ∀ t : AggAcc, (ss.foldl accAdd t).snr_max =
      (ss.map (fun u => u.snr_max)).foldl max t.snr_max := by
  induction ss with
  | nil => intro t; simp
  | cons s ss ih =>
      intro t
      rw [List.foldl_cons, ih, List.map_cons, List.foldl_cons]
      show (ss.map _).foldl max (max s.snr_max t.snr_max) =
        (ss.map _).foldl max (max t.snr_max s.snr_max)
      rw [max_comm]

theorem accOf_pkt (es : List AntStat) (t : AggAcc) (h : accOf es = some t) :
    t.pkt = (es.map (fun u => u.pkt)).sum := by
  cases es with
  | nil => simp [accOf] at h
  | cons s ss =>
      simp only [accOf, Option.some.injEq] at h
      subst h
      rw [foldl_accAdd_pkt]
      simp [accInit]

theorem foldedSpec_eq_divAcc (es : List AntStat) (t : AggAcc) (h : accOf es = some t) :
    foldedSpec es = some (divAcc t) := by
  cases es with
  | nil => simp [accOf] at h
  | cons s ss =>
      simp only [accOf, Option.some.injEq] at h
      subst h
      simp only [foldedSpec, divAcc, Option.some.injEq, AntStat.mk.injEq]
      refine ⟨?_, ?_, ?_, ?_, ?_, ?_, ?_⟩
      · rw [foldl_accAdd_pkt]; simp [accInit]
      · rw [foldl_accAdd_rmin]; rfl
      · rw [foldl_accAdd_ras, foldl_accAdd_pkt]; simp [accInit]
      · rw [foldl_accAdd_rmax]; rfl
      · rw [foldl_accAdd_smin]; rfl
      · rw [foldl_accAdd_sas, foldl_accAdd_pkt]; simp [accInit]
      · rw [foldl_accAdd_smax]; rfl

theorem mem_antIds_iff (l : List AntEntry) (a : Nat) :
    a ∈ antIds l ↔ entriesFor l a ≠ [] := by
  rw [antIds, List.mem_dedup, entriesFor]
  simp only [ne_eq, List.map_eq_nil_iff, List.mem_map]
  rw [List.filter_eq_nil_iff]
  constructor
  · rintro ⟨e, he, hea⟩ hall
    exact hall e he (by simpa using hea)
  · intro hne
    by_contra hno
    refine hne (fun e he => ?_)
    simp only [decide_eq_true_eq]
    intro hea
    exact hno ⟨e, he, hea⟩

/-- C3: for every input whose per-ant packet counts sum to a positive
value, `_stats_agg_by_freq` completes and yields, for each `ant_id`,
exactly the tuple `(Σpkt, min rssi_min, (Σ rssi_avg*pkt) fdiv Σpkt,
max rssi_max, min snr_min, (Σ snr_avg*pkt) fdiv Σpkt, max snr_max)`, with
the per-ant `pkt` being the sum of the per-frequency counts; absent ants
stay absent. -/
theorem stats_agg_by_freq_spec (l : List AntEntry)
    (h : ∀ a ∈ antIds l, 0 < sumPkt l a) :
    ∃ res, stats_agg_by_freq l = some res ∧
      ∀ a : Nat, alFind a res = foldedSpec (entriesFor l a) := by
  have hnz : ∀ p ∈ aggLoop l, p.2.pkt ≠ 0 := by
    intro p hp
    have hfind : alFind p.1 (aggLoop l) = some p.2 := mem_alFind (aggLoop_keys_nodup l) hp
    rw [alFind_aggLoop] at hfind
    have hne : entriesFor l p.1 ≠ [] := by
      intro hnil; rw [hnil] at hfind; simp [accOf] at hfind
    have hmem : p.1 ∈ antIds l := (mem_antIds_iff l p.1).mpr hne
    have hpk : p.2.pkt = sumPkt l p.1 := accOf_pkt _ _ hfind
    rw [hpk]
    exact (h p.1 hmem).ne'
  obtain ⟨qs, hqs⟩ := finalizeAll_isSome (aggLoop l) hnz
  refine ⟨qs, hqs, fun a => ?_⟩
  rw [finalizeAll_find a (aggLoop l) qs hqs, alFind_aggLoop]
  cases hacc : accOf (entriesFor l a) with
  | none =>
      have h0 := (accOf_eq_none _).mp hacc
      rw [h0]
      rfl
  | some t => exact (foldedSpec_eq_divAcc _ t hacc).symm

/-- Witness for C3: the two-record input `lw` for ant 5 folds to the
spec tuple `(4, -70, -15, -1, 1, 5, 9)`. -/
theorem stats_agg_by_freq_spec_witness :
    foldedSpec (entriesFor lw 5) = some ⟨4, -70, -15, -1, 1, 5, 9⟩ := by
  obtain ⟨res, hres, hall⟩ := stats_agg_by_freq_spec lw (by decide)
  rw [← hall 5]
  have hc : stats_agg_by_freq lw = some [(5, (⟨4, -70, -15, -1, 1, 5, 9⟩ : AntStat))] := by
    decide
  rw [hres, Option.some.injEq] at hc
  subst hc
  decide

/-- C4 counterexample: a single `RX_ANT` entry with packet count 0 makes
the fold fail with a `ZeroDivisionError` (modelled as `none`) instead of
completing with the ant dropped. -/
theorem stats_agg_zero_pkt_cex : stats_agg_by_freq [zeroPktEntry] = none := by decide

/-- C4 (amended): the fold raises `ZeroDivisionError` exactly when some
present `ant_id` has packet counts summing to zero; no ant is ever
dropped. -/
theorem stats_agg_zero_divisor (l : List AntEntry) :
    stats_agg_by_freq l = none ↔ ∃ a ∈ antIds l, sumPkt l a = 0 := by
  rw [stats_agg_by_freq, finalizeAll_none]
  constructor
  · rintro ⟨p, hp, hz⟩
    have hfind : alFind p.1 (aggLoop l) = some p.2 := mem_alFind (aggLoop_keys_nodup l) hp
    rw [alFind_aggLoop] at hfind
    have hne : entriesFor l p.1 ≠ [] := by
      intro hnil; rw [hnil] at hfind; simp [accOf] at hfind
    refine ⟨p.1, (mem_antIds_iff l p.1).mpr hne, ?_⟩
    have hpk : p.2.pkt = sumPkt l p.1 := accOf_pkt _ _ hfind
    rw [← hpk]
    exact hz
  · rintro ⟨a, ha, hz⟩
    have hne := (mem_antIds_iff l a).mp ha
    cases hacc : accOf (entriesFor l a) with
    | none => exact absurd ((accOf_eq_none _).mp hacc) hne
    | some t =>
        have hfind : alFind a (aggLoop l) = some t := by rw [alFind_aggLoop, hacc]
        refine ⟨(a, t), alFind_mem hfind, ?_⟩
        have hpk : t.pkt = sumPkt l a := accOf_pkt _ _ hacc
        rw [hpk]
        exact hz

/-! ### Lemmas about TX antenna selection -/

theorem lexLe_refl (a : Int × Nat) : lexLe a a := Or.inr ⟨rfl, le_refl _⟩

theorem lexLe_trans {a b c : Int × Nat} (h1 : lexLe a b) (h2 : lexLe b c) : lexLe a c := by
  unfold lexLe at h1 h2 ⊢
  omega

theorem lexLe_pmax_left (a b : Int × Nat) : lexLe a (pmax a b) := by
  unfold pmax
  split <;> unfold lexLe <;> omega

theorem lexLe_pmax_right (a b : Int × Nat) : lexLe b (pmax a b) := by
  unfold pmax
  split <;> unfold lexLe <;> omega

theorem pmax_cases (a b : Int × Nat) : pmax a b = a ∨ pmax a b = b := by
  unfold pmax
  split
  · exact Or.inr rfl
  · exact Or.inl rfl

theorem foldl_pmax_mem (f : Nat → Int × Nat) (cs : List Nat) :
    ∀ b, cs.foldl (fun x k => pmax x (f k)) b = b ∨
      ∃ k ∈ cs, cs.foldl (fun x k => pmax x (f k)) b = f k := by
  induction cs with
  | nil => intro b; exact Or.inl rfl
  | cons c cs ih =>
      intro b
      rw [List.foldl_cons]
      rcases ih (pmax b (f c)) with h | ⟨k, hk, he⟩
      · rw [h]
        rcases pmax_cases b (f c) with h2 | h2
        · exact Or.inl h2
        · exact Or.inr ⟨c, List.mem_cons_self _ _, h2⟩
      · exact Or.inr ⟨k, List.mem_cons_of_mem _ hk, he⟩

theorem foldl_pmax_le_init (f : Nat → Int × Nat) (cs : List Nat) :
    ∀ b, lexLe b (cs.foldl (fun x k => pmax x (f k)) b) := by
  induction cs with
  | nil => intro b; exact lexLe_refl b
  | cons c cs ih =>
      intro b
      rw [List.foldl_cons]
      exact lexLe_trans (lexLe_pmax_left b (f c)) (ih _)

theorem foldl_pmax_ub (f : Nat → Int × Nat) (cs : List Nat) :
    ∀ b, ∀ k ∈ cs, lexLe (f k) (cs.foldl (fun x k => pmax x (f k)) b) := by
  induction cs with
  | nil => intro b k hk; simp at hk
  | cons c cs ih =>
      intro b k hk
      rw [List.foldl_cons]
      rcases List.mem_cons.mp hk with h | h
      · subst h
        exact lexLe_trans (lexLe_pmax_right b (f k)) (foldl_pmax_le_init f cs _)
      · exact ih _ k h

theorem bestOf_mem (sa : List (Nat × AntStat)) (c : Nat) (cs : List Nat) :
    ∃ k ∈ c :: cs, bestOf sa (c :: cs) = (nicRssi sa k, k) := by
  rcases foldl_pmax_mem (fun k => (nicRssi sa k, k)) cs (nicRssi sa c, c) with h | ⟨k, hk, he⟩
  · exact ⟨c, List.mem_cons_self _ _, h⟩
  · exact ⟨k, List.mem_cons_of_mem _ hk, he⟩

theorem bestOf_ub (sa : List (Nat × AntStat)) (c : Nat) (cs : List Nat) :
    ∀ k ∈ c :: cs, lexLe (nicRssi sa k, k) (bestOf sa (c :: cs)) := by
  intro k hk
  rcases List.mem_cons.mp hk with h | h
  · subst h
    exact foldl_pmax_le_init _ cs _
  · exact foldl_pmax_ub _ cs _ k h

theorem candSet_subset_nics (cfg : SelCfg) (sa : List (Nat × AntStat)) (k : Nat)
    (h : k ∈ candSet cfg sa) : k ∈ nicsOf sa :=
  (List.mem_filter.mp h).1

/-- C1: for a non-empty folded input, the selector leaves `tx_sel`
untouched when the candidate set (NICs whose max-of-antennas packet
counter reaches `max_pkts - max(abs_delta, max_pkts*rel_delta)`) is empty;
any switch target it emits is the candidate maximising `(rssi, idx)`
lexicographically (ties to the higher idx); and the post-update `tx_sel`
is the prior one or a member of the candidate set. -/
theorem select_tx_antenna_rules (cfg : SelCfg) (t : Nat) (sa : List (Nat × AntStat))
    (hne : sa ≠ []) :
    (candSet cfg sa = [] → selectDecision cfg t sa = none) ∧
    (∀ n, selectDecision cfg t sa = some n →
        n ∈ candSet cfg sa ∧ n = (bestOf sa (candSet cfg sa)).2 ∧
        ∀ k ∈ candSet cfg sa, lexLe (nicRssi sa k, k) (nicRssi sa n, n)) ∧
    ((selectDecision cfg t sa).getD t = t ∨ (selectDecision cfg t sa).getD t ∈ candSet cfg sa) := by
  have hsome : ∀ n, selectDecision cfg t sa = some n →
      n ∈ candSet cfg sa ∧ n = (bestOf sa (candSet cfg sa)).2 ∧
      ∀ k ∈ candSet cfg sa, lexLe (nicRssi sa k, k) (nicRssi sa n, n) := by
    intro n hn
    unfold selectDecision at hn
    split_ifs at hn with h1 h2 h3 h4
    have hbn : (bestOf sa (candSet cfg sa)).2 = n := by
      simpa using hn
    obtain ⟨c, cs, hcc⟩ : ∃ c cs, candSet cfg sa = c :: cs := by
      cases hcs : candSet cfg sa with
      | nil => exact absurd hcs h2
      | cons c cs => exact ⟨c, cs, rfl⟩
    obtain ⟨k0, hk0, hbe⟩ := bestOf_mem sa c cs
    have hn0 : n = k0 := by
      rw [← hbn, hcc, hbe]
    subst hn0
    refine ⟨by rw [hcc]; exact hk0, hbn.symm, ?_⟩
    intro k hk
    have := bestOf_ub sa c cs k (by rwa [hcc] at hk)
    rwa [hbe] at this
  refine ⟨?_, hsome, ?_⟩
  · intro hc
    unfold selectDecision
    rw [hc]
    simp
  · cases hd : selectDecision cfg t sa with
    | none => exact Or.inl rfl
    | some n =>
        right
        simpa using (hsome n hd).1

/-- Witness for C1: a concrete two-NIC folded input. -/
theorem select_tx_antenna_rules_witness :
    saW ≠ [] ∧
      ((selectDecision aggW2.cfg 0 saW).getD 0 = 0 ∨
        (selectDecision aggW2.cfg 0 saW).getD 0 ∈ candSet aggW2.cfg saW) :=
  ⟨by decide, (select_tx_antenna_rules aggW2.cfg 0 saW (by decide)).2.2⟩

/-- C2: when the best candidate already is `tx_sel`, or `tx_sel` is itself
a candidate and the best candidate improves on its RSSI by strictly less
than `rssi_delta`, `select_tx_antenna` changes nothing and invokes no
`ant_sel_cb`. -/
theorem select_tx_antenna_hysteresis (st : AggState) (sa : List (Nat × AntStat))
    (hc : candSet st.cfg sa ≠ [])
    (hcase : (bestOf sa (candSet st.cfg sa)).2 = st.tx_sel ∨
      (st.tx_sel ∈ candSet st.cfg sa ∧
        (bestOf sa (candSet st.cfg sa)).1 - nicRssi sa st.tx_sel < st.cfg.tx_sel_rssi_delta)) :
    selectDecision st.cfg st.tx_sel sa = none ∧ selectRun st sa = (st, []) := by
  have hnone : selectDecision st.cfg st.tx_sel sa = none := by
    unfold selectDecision
    split_ifs with h1 h2 h3
    · rfl
    · rfl
    · rfl
    · exfalso
      rcases hcase with hb | ⟨hmem, hlt⟩
      · exact h2 hb
      · refine h3 ⟨hmem, ?_⟩
        have hnic : st.tx_sel ∈ nicsOf sa := candSet_subset_nics _ _ _ hmem
        rw [curRssi, if_pos hnic]
        exact hlt
  exact ⟨hnone, by simp [selectRun, hnone]⟩

/-- Witness for C2: NIC 0 selected at −60 dBm, NIC 1 at −58 dBm, both
candidates, `rssi_delta = 3`: the 2 dB improvement is inside the
hysteresis band. -/
theorem select_tx_antenna_hysteresis_witness :
    selectDecision aggW2.cfg aggW2.tx_sel saW = none ∧ selectRun aggW2 saW = (aggW2, []) :=
  select_tx_antenna_hysteresis aggW2 saW (by with_unfolding_all decide)
    (Or.inr ⟨by with_unfolding_all decide, by with_unfolding_all decide⟩)

/-! ### RSSI injection, callback registration, update ordering -/

/-- C5: the values handed to every `rssi_cb` satisfy the flag equations and
the saturation bounds: `LINK_LOST` (bit 1) is set exactly when the folded
card RSSI list is empty, otherwise `LINK_JAMMED` (bit 2) is set exactly
when the decode-error plus bad deltas are positive; `rx_errors` and
`rx_fec` are capped at 65535; and `mav_rssi` lies in `[0, 255]`. -/
theorem rssi_injection_props (r : Bool) (ps : RxPackets) (card : List Int) :
    ((rssiFlags card ps) &&& 1 ≠ 0 ↔ card = []) ∧
    (card ≠ [] → ((rssiFlags card ps) &&& 2 ≠ 0 ↔ 0 < ps.dec_err.1 + ps.bad.1)) ∧
    (card = [] → (rssiFlags card ps) &&& 2 = 0) ∧
    rx_errors r ps ≤ 65535 ∧ rx_fec r ps ≤ 65535 ∧
    0 ≤ mav_rssi card ∧ mav_rssi card ≤ 255 := by
  refine ⟨?_, ?_, ?_, min_le_right _ _, min_le_right _ _, ?_, ?_⟩
  · cases card with
    | nil => simp [rssiFlags]
    | cons c cs =>
        simp only [rssiFlags, if_neg (List.cons_ne_nil c cs)]
        split_ifs with h <;> simp
  · intro hne
    cases card with
    | nil => exact absurd rfl hne
    | cons c cs =>
        simp only [rssiFlags, if_neg (List.cons_ne_nil c cs)]
        split_ifs with h <;> simp [h]
  · intro he
    subst he
    simp [rssiFlags]
  · exact Int.emod_nonneg _ (by decide)
  · have h := Int.emod_lt_of_pos
      (match card with
       | [] => (-128 : Int)
       | x :: xs => xs.foldl max x) (by decide : (0 : Int) < 256)
    unfold mav_rssi
    omega

/-- Witness for C5 at a jammed single-card input. -/
theorem rssi_injection_props_witness :
    ((rssiFlags [-50] ⟨(3, 3), (1, 1), (0, 0), (0, 0)⟩) &&& 2 ≠ 0 ↔
      0 < (RxPackets.mk (3, 3) (1, 1) (0, 0) (0, 0)).dec_err.1 +
        (RxPackets.mk (3, 3) (1, 1) (0, 0) (0, 0)).bad.1) ∧
    0 ≤ mav_rssi [-50] ∧ mav_rssi [-50] ≤ 255 :=
  ⟨(rssi_injection_props false ⟨(3, 3), (1, 1), (0, 0), (0, 0)⟩ [-50]).2.1 (by decide),
   (rssi_injection_props false ⟨(3, 3), (1, 1), (0, 0), (0, 0)⟩ [-50]).2.2.2.2.2.1,
   (rssi_injection_props false ⟨(3, 3), (1, 1), (0, 0), (0, 0)⟩ [-50]).2.2.2.2.2.2⟩

/-- C10: registering an antenna-selection callback invokes it exactly once,
synchronously, with the current `tx_sel`; the selection state is otherwise
untouched and the callback list grows by one. -/
theorem add_ant_sel_cb_immediate (st : AggState) :
    (add_ant_sel_cb st).2 = [AggEvent.antSel st.tx_sel] ∧
    (add_ant_sel_cb st).1.tx_sel = st.tx_sel ∧
    (add_ant_sel_cb st).1.n_ant_cbs = st.n_ant_cbs + 1 :=
  ⟨rfl, rfl, rfl⟩

theorem selPart_antSel (st : AggState) (sa : List (Nat × AntStat)) :
    ∀ e ∈ (selPart st sa).2, ∃ i, e = AggEvent.antSel i := by
  intro e he
  unfold selPart at he
  split_ifs at he with h
  · unfold selectRun at he
    cases hd : selectDecision st.cfg st.tx_sel sa with
    | none => rw [hd] at he; simp at he
    | some n =>
        rw [hd] at he
        exact ⟨n, List.eq_of_mem_replicate he⟩
  · simp at he

theorem rssiPart_rssi (st : AggState) (ps : RxPackets) (card : List Int) :
    ∀ e ∈ rssiPart st ps card, ∃ m er fc fl, e = AggEvent.rssi m er fc fl := by
  intro e he
  unfold rssiPart at he
  split_ifs at he with h
  · exact ⟨_, _, _, _, List.eq_of_mem_replicate he⟩
  · simp at he

theorem pairwise_rank_three (x y z : List AggEvent)
    (hx : ∀ e ∈ x, evRank e = 0) (hy : ∀ e ∈ y, evRank e = 1)
    (hz : ∀ e ∈ z, evRank e = 2) :
    (x ++ y ++ z).Pairwise (fun a b => evRank a ≤ evRank b) := by
  rw [List.pairwise_append, List.pairwise_append]
  refine ⟨⟨?_, ?_, ?_⟩, ?_, ?_⟩
  · exact List.pairwise_of_forall_mem_list (fun a ha b hb => by rw [hx a ha, hx b hb])
  · exact List.pairwise_of_forall_mem_list (fun a ha b hb => by rw [hy a ha, hy b hb])
  · intro a ha b hb
    rw [hx a ha, hy b hb]
    omega
  · exact List.pairwise_of_forall_mem_list (fun a ha b hb => by rw [hz a ha, hz b hb])
  · intro a ha b hb
    rcases List.mem_append.mp ha with h | h
    · rw [hx a h, hz b hb]; omega
    · rw [hy a h, hz b hb]; omega

/-- C9: within one `update_rx_stats` call, events occur in phase order —
all antenna-selection callbacks, then all RSSI callbacks, then the
broadcast — and every broadcast rx record carries the post-switch `tx_sel`
of the final state. -/
theorem update_rx_stats_ordering (st : AggState) (ps : RxPackets) (l : List AntEntry)
    (st2 : AggState) (tr : List AggEvent)
    (h : update_rx_stats st ps l = some (st2, tr)) :
    tr.Pairwise (fun a b => evRank a ≤ evRank b) ∧
    ∀ n : Nat, AggEvent.sendRx n ∈ tr → n = st2.tx_sel := by
  unfold update_rx_stats at h
  cases hsa : stats_agg_by_freq l with
  | none => rw [hsa] at h; exact absurd h (by simp)
  | some sa =>
      rw [hsa] at h
      rw [Option.some.injEq, Prod.mk.injEq] at h
      obtain ⟨hA, hB⟩ := h
      subst hB
      constructor
      · refine pairwise_rank_three _ _ _ ?_ ?_ ?_
        · intro e he
          obtain ⟨i, hi⟩ := selPart_antSel st sa e he
          rw [hi]; rfl
        · intro e he
          obtain ⟨m, er, fc, fl, hi⟩ := rssiPart_rssi st ps _ e he
          rw [hi]; rfl
        · intro e he
          rw [List.eq_of_mem_replicate he]; rfl
      · intro n hm
        rcases List.mem_append.mp hm with hm1 | hm2
        · rcases List.mem_append.mp hm1 with hm3 | hm4
          · obtain ⟨i, hi⟩ := selPart_antSel st sa _ hm3
            exact absurd hi (by simp)
          · obtain ⟨m, er, fc, fl, hi⟩ := rssiPart_rssi st ps _ _ hm4
            exact absurd hi (by simp)
        · have := List.eq_of_mem_replicate hm2
          rw [← hA]
          exact (AggEvent.sendRx.injEq _ _).mp this

/-- Witness for C9: one RSSI callback and one session, no selection
callbacks. -/
theorem update_rx_stats_ordering_witness :
    List.Pairwise (fun a b => evRank a ≤ evRank b)
      [AggEvent.rssi 206 0 0 0, AggEvent.sendRx 0] :=
  (update_rx_stats_ordering aggW psW antW aggW
    [AggEvent.rssi 206 0 0 0, AggEvent.sendRx 0] (by decide)).1

/-! ### Parser robustness and promise discipline -/

/-- C6 (code refutation): the spec's own malformed-arity line
`X\tPKT\t1:2:3` makes `RXAntennaProtocol.lineReceived` raise an uncaught
`ValueError` (only `BadTelemetry` is caught), so the error is not logged
as bad telemetry; the accumulated state is left unchanged. -/
theorem rx_bad_pkt_line_raises :
    rxLineReceived rxInit ("X\tPKT\t1:2:3".data) = (rxInit, RxOut.raised, []) := by
  decide

/-- C8 counterexample: a PKT record with a negative delta (which the
parser accepts) makes the published running total decrease: the `all`
total goes from 1 to −4 across two records from the same parser. -/
theorem rx_totals_decrease_cex :
    (rxLineReceived rxInit ("0\tPKT\t1:0:0:0:0:0:0:0:0".data)).2.2 =
      [RxEvent.stats [("all", 1, 1), ("all_bytes", 0, 0), ("dec_ok", 0, 0), ("fec_rec", 0, 0),
        ("lost", 0, 0), ("dec_err", 0, 0), ("bad", 0, 0), ("out", 0, 0), ("out_bytes", 0, 0)]
        [] none] ∧
    (rxLineReceived (rxLineReceived rxInit ("0\tPKT\t1:0:0:0:0:0:0:0:0".data)).1
        ("0\tPKT\t-5:0:0:0:0:0:0:0:0".data)).2.2 =
      [RxEvent.stats [("all", -5, -4), ("all_bytes", 0, 0), ("dec_ok", 0, 0), ("fec_rec", 0, 0),
        ("lost", 0, 0), ("dec_err", 0, 0), ("bad", 0, 0), ("out", 0, 0), ("out_bytes", 0, 0)]
        [] none] ∧
    (-4 : Int) < 1 := by
  decide

theorem zipWith_add_comm (a : List Int) :
    ∀ b : List Int, List.zipWith (· + ·) a b = List.zipWith (· + ·) b a := by
  induction a with
  | nil => intro b; cases b <;> rfl
  | cons x xs ih =>
      intro b
      cases b with
      | nil => rfl
      | cons y ys =>
          show (x + y) :: List.zipWith (· + ·) xs ys = (y + x) :: List.zipWith (· + ·) ys xs
          rw [ih ys, Int.add_comm]

theorem zipWith_add_assoc (a : List Int) :
    ∀ b c : List Int,
      List.zipWith (· + ·) (List.zipWith (· + ·) a b) c =
        List.zipWith (· + ·) a (List.zipWith (· + ·) b c) := by
  induction a with
  | nil => intro b c; rfl
  | cons x xs ih =>
      intro b c
      cases b with
      | nil => rfl
      | cons y ys =>
          cases c with
          | nil => rfl
          | cons z zs =>
              show (x + y + z) :: _ = (x + (y + z)) :: _
              rw [ih ys zs, Int.add_assoc]

theorem zipWith_add_left_comm (a b c : List Int) :
    List.zipWith (· + ·) a (List.zipWith (· + ·) b c) =
      List.zipWith (· + ·) b (List.zipWith (· + ·) a c) := by
  rw [← zipWith_add_assoc, zipWith_add_comm a b, zipWith_add_assoc]

theorem zipWith_add_replicate_zero (d : List Int) :
    ∀ n : Nat, d.length = n → List.zipWith (· + ·) d (List.replicate n 0) = d := by
  induction d with
  | nil => intro n _; rfl
  | cons x xs ih =>
      intro n h
      cases n with
      | zero => simp at h
      | succ m =>
          rw [List.replicate_succ]
          show (x + 0) :: List.zipWith (· + ·) xs (List.replicate m 0) = x :: xs
          rw [add_zero, ih m (by simpa using h)]

theorem updCount_some_length (d t : List Int) (n : Nat) (hd : d.length = n)
    (ht : t.length = n) : (updCount (some t) d).length = n := by
  simp [updCount, hd, ht]

theorem totalsSeq_get_some (n : Nat) (ds : List (List Int)) :
    ∀ t : List Int, (∀ d ∈ ds, d.length = n) → t.length = n →
      ∀ k, k < ds.length →
        (totalsSeq (some t) ds).get? k =
          some (List.zipWith (· + ·) (vecSum n (ds.take (k + 1))) t) := by
  induction ds with
  | nil => intro t _ _ k hk; simp at hk
  | cons d ds ih =>
      intro t hlen ht k hk
      have hdn : d.length = n := hlen d (List.mem_cons_self _ _)
      cases k with
      | zero =>
          simp only [totalsSeq, List.get?_cons_zero]
          rw [List.take_succ_cons, List.take_zero]
          show some (List.zipWith (· + ·) d t) =
            some (List.zipWith (· + ·) (List.zipWith (· + ·) d (List.replicate n 0)) t)
          rw [zipWith_add_replicate_zero d n hdn]
      | succ k =>
          have hk2 : k < ds.length := by simpa using hk
          simp only [totalsSeq, List.get?_cons_succ]
          rw [ih (updCount (some t) d) (fun e he => hlen e (List.mem_cons_of_mem _ he))
              (updCount_some_length d t n hdn ht) k hk2]
          rw [List.take_succ_cons]
          show some (List.zipWith (· + ·) (vecSum n (ds.take (k + 1)))
              (List.zipWith (· + ·) d t)) =
            some (List.zipWith (· + ·) (List.zipWith (· + ·) d (vecSum n (ds.take (k + 1)))) t)
          rw [zipWith_add_left_comm (vecSum n (ds.take (k + 1))) d t,
              zipWith_add_assoc d (vecSum n (ds.take (k + 1))) t]

theorem totalsSeq_sums_so_far (n : Nat) (ds : List (List Int))
    (hlen : ∀ d ∈ ds, d.length = n) :
    ∀ k, k < ds.length → (totalsSeq none ds).get? k = some (vecSum n (ds.take (k + 1))) := by
  cases ds with
  | nil => intro k hk; simp at hk
  | cons d ds =>
      intro k hk
      have hdn : d.length = n := hlen d (List.mem_cons_self _ _)
      cases k with
      | zero =>
          simp only [totalsSeq, List.get?_cons_zero]
          rw [List.take_succ_cons, List.take_zero]
          show some d = some (List.zipWith (· + ·) d (List.replicate n 0))
          rw [zipWith_add_replicate_zero d n hdn]
      | succ k =>
          have hk2 : k < ds.length := by simpa using hk
          simp only [totalsSeq, List.get?_cons_succ, updCount]
          rw [totalsSeq_get_some n ds d (fun e he => hlen e (List.mem_cons_of_mem _ he)) hdn k hk2]
          rw [List.take_succ_cons]
          show some (List.zipWith (· + ·) (vecSum n (ds.take (k + 1))) d) =
            some (List.zipWith (· + ·) d (vecSum n (ds.take (k + 1))))
          rw [zipWith_add_comm]

theorem forall2_le_zipWith (d : List Int) :
    ∀ t : List Int, d.length = t.length → (∀ x ∈ d, 0 ≤ x) →
      List.Forall₂ (· ≤ ·) t (List.zipWith (· + ·) d t) := by
  induction d with
  | nil =>
      intro t h _
      cases t with
      | nil => exact List.Forall₂.nil
      | cons y ys => simp at h
  | cons x xs ih =>
      intro t h hpos
      cases t with
      | nil => simp at h
      | cons y ys =>
          show List.Forall₂ _ (y :: ys) ((x + y) :: List.zipWith (· + ·) xs ys)
          refine List.Forall₂.cons ?_
            (ih ys (by simpa using h) (fun u hu => hpos u (List.mem_cons_of_mem _ hu)))
          have := hpos x (List.mem_cons_self _ _)
          omega

theorem chain_totalsSeq (n : Nat) (ds : List (List Int)) :
    ∀ t : List Int, (∀ d ∈ ds, d.length = n) → t.length = n →
      (∀ d ∈ ds, ∀ x ∈ d, 0 ≤ x) →
      List.Chain (List.Forall₂ (· ≤ ·)) t (totalsSeq (some t) ds) := by
  induction ds with
  | nil => intro t _ _ _; exact List.Chain.nil
  | cons d ds ih =>
      intro t hlen ht hpos
      have hdn : d.length = n := hlen d (List.mem_cons_self _ _)
      show List.Chain _ t (updCount (some t) d :: totalsSeq (some (updCount (some t) d)) ds)
      refine List.Chain.cons ?_ ?_
      · show List.Forall₂ (· ≤ ·) t (List.zipWith (· + ·) d t)
        exact forall2_le_zipWith d t (by rw [hdn, ht]) (hpos d (List.mem_cons_self _ _))
      · exact ih (updCount (some t) d) (fun e he => hlen e (List.mem_cons_of_mem _ he))
          (updCount_some_length d t n hdn ht) (fun e he => hpos e (List.mem_cons_of_mem _ he))

/-- C8 (amended): over any sequence of parsed PKT delta vectors of a fixed
width (9 for RX, 7 for TX), each published `total` equals the componentwise
sum of all deltas parsed so far; when every parsed delta is nonnegative the
published totals are pointwise non-decreasing across successive records
(a negative delta, which the parser accepts, can make a total decrease). -/
theorem pkt_totals_amended (ds : List (List Int)) (n : Nat)
    (hlen : ∀ d ∈ ds, d.length = n) :
    (∀ k, k < ds.length → (totalsSeq none ds).get? k = some (vecSum n (ds.take (k + 1)))) ∧
    ((∀ d ∈ ds, ∀ x ∈ d, 0 ≤ x) →
      List.Chain' (List.Forall₂ (· ≤ ·)) (totalsSeq none ds)) := by
  refine ⟨totalsSeq_sums_so_far n ds hlen, ?_⟩
  intro hpos
  cases ds with
  | nil => exact trivial
  | cons d ds =>
      show List.Chain (List.Forall₂ (· ≤ ·)) (updCount none d)
        (totalsSeq (some (updCount none d)) ds)
      exact chain_totalsSeq n ds d (fun e he => hlen e (List.mem_cons_of_mem _ he))
        (hlen d (List.mem_cons_self _ _)) (fun e he => hpos e (List.mem_cons_of_mem _ he))

/-- Witness for C8 (amended): the second published total is the sum of the
first two deltas. -/
theorem pkt_totals_amended_witness :
    (totalsSeq none [[(1 : Int), 2], [3, 4]]).get? 1 =
      some (vecSum 2 (([[(1 : Int), 2], [3, 4]] : List (List Int)).take 2)) :=
  (pkt_totals_amended [[1, 2], [3, 4]] 2 (by decide)).1 1 (by decide)

end Wfb
